import Mathlib

/-!
# f1-dashboard: verification of the derivation/aggregation layer

Shallow embedding of the standings aggregation, stint-chart preparation and
race-completion logic of the `f1-dashboard` repository
(`src/unnamed/part_011`, `src/frontend/pages/drivers.js`,
`src/frontend/components/TireStrategyChart.js`, `src/unnamed/part_006`,
`src/frontend/pages/races.js`), together with proofs of the spec's claims
about them.

JavaScript numbers that the code only ever adds, subtracts and compares
(points, lap numbers, positions) are modelled as `Int`.  A field whose
JavaScript value may be absent or non-numeric is an `Option Int` (`none` =
missing / fails the code's `typeof x === 'number'` guard).  JavaScript's
`Array.prototype.sort` (stable since ES2019, comparator returning a number
whose sign decides the order) is modelled by a stable insertion sort over an
`Int`-valued comparator.
-/

namespace F1


/-! ## A stable sort with a JavaScript-style comparator

`insertCmp` inserts `x` after every element `y` with `cmp x y ≥ 0` and before
the first `y` with `cmp x y < 0`; folding it over the input list from the left
is a stable sort agreeing with `Array.prototype.sort(cmp)` for a consistent
comparator. -/

def insertCmp (cmp : α → α → Int) (x : α) : List α → List α
  | [] => [x]
  | y :: ys => if cmp x y < 0 then x :: y :: ys else y :: insertCmp cmp x ys

def jsSort (cmp : α → α → Int) (l : List α) : List α :=
  l.foldl (fun acc x => insertCmp cmp x acc) []

/-- A comparator is consistent when a non-negative answer one way forces a
non-positive answer the other way (true of every comparator in this code
base). -/
def CmpConsistent (cmp : α → α → Int) : Prop :=
  ∀ a b, ¬ cmp a b < 0 → cmp b a ≤ 0

/-- Transitivity of the non-strict order induced by the comparator. -/
def CmpTrans (cmp : α → α → Int) : Prop :=
  ∀ a b c, cmp a b ≤ 0 → cmp b c ≤ 0 → cmp a c ≤ 0

/-! ## Driver standings page (`src/frontend/pages/drivers.js`)

`fetchDriverData` merges each record of the drivers feed with the matching
standings record (`standingsMap[driver.driver_name] || {}`), defaulting the
points fields with `|| 0` and the position with `|| null`, and then sorts the
merged records with the comparator at lines 101–112. -/

/-- A record of the standings feed; `none` models a missing field.  (A present
numeric `0` behaves like a missing field under JavaScript's `|| 0` / `|| null`
defaulting, which the definitions below reproduce.) -/
structure RawStanding where
  total_points : Option Int
  points : Option Int
  sprint_points : Option Int
  races_participated : Option Int
  position : Option Int
deriving DecidableEq, Repr

/-- A record of the drivers feed (`driversData`), which carries the identity
the merged record keeps. -/
structure DriverRec where
  driver_name : String
  team : String
deriving DecidableEq, Repr

/-- The merged record produced at lines 89–99 of `drivers.js`. -/
structure MergedDriver where
  driver_name : String
  team : String
  total_points : Int
  points : Int
  sprintPoints : Int
  races_participated : Int
  position : Option Int
deriving DecidableEq, Repr

/-- JavaScript `v || 0` on a possibly-missing number: missing gives `0`, and a
present `0` (falsy) also gives `0`, so this is `Option.getD 0`. -/
def jsOrZero (v : Option Int) : Int := v.getD 0

/-- JavaScript `v || null` on a possibly-missing number: missing stays `null`,
and a present `0` (falsy) becomes `null`. -/
def jsOrNull : Option Int → Option Int
  | some n => if n = 0 then none else some n
  | none => none

/-- Lines 89–99: `const standing = standingsMap[driver.driver_name] || {};`
followed by the field-by-field defaulting. -/
def mergeDriver (d : DriverRec) (standing : Option RawStanding) : MergedDriver :=
  let st := standing.getD ⟨none, none, none, none, none⟩
  { driver_name := d.driver_name
    team := d.team
    total_points := jsOrZero st.total_points
    points := jsOrZero st.points
    sprintPoints := jsOrZero st.sprint_points
    races_participated := jsOrZero st.races_participated
    position := jsOrNull st.position }

/-- Model of `String.prototype.localeCompare` restricted to what the claims
need: the default locale collation is case-insensitive at the primary level,
so two names are compared through their lowercase forms.  (Names equal up to
case are reported equal here; no claim depends on that tie.) -/
def localeCmp (a b : String) : Int :=
  if a.toLower < b.toLower then -1 else if b.toLower < a.toLower then 1 else 0

/-- The comparator at lines 101–112 of `drivers.js`: position ascending when
both records carry one, a record with a position before one without, and the
name comparison only when neither record carries a position. -/
def driverCmp (a b : MergedDriver) : Int :=
  match a.position, b.position with
  | some pa, some pb => pa - pb
  | some _, none => -1
  | none, some _ => 1
  | none, none => localeCmp a.driver_name b.driver_name

/-- `mergedDrivers.sort(...)` at line 101 of `drivers.js`. -/
def sortDrivers (l : List MergedDriver) : List MergedDriver := jsSort driverCmp l

/-- The ordering the amended claim states, phrased without the comparator:
ranked entries first (ascending by rank), then unranked entries by
case-insensitive name. -/
def DriverOrder (a b : MergedDriver) : Prop :=
  match a.position, b.position with
  | some pa, some pb => pa ≤ pb
  | some _, none => True
  | none, some _ => False
  | none, none => a.driver_name.toLower ≤ b.driver_name.toLower

/-! ## Home page constructor standings (`src/unnamed/part_011`, lines 528–546)

`standings.reduce((acc, driver) => …, {})` groups the driver point entries by
team into an object (string keys, so `Object.values` returns the groups in
insertion order of first team appearance), adding a driver's points and name
to its team's group only when the name is not already in the group's
`drivers` array; the groups are then sorted by `b.total_points -
a.total_points` and the first three are displayed. -/

/-- A driver point entry as consumed by the Home page reduce. -/
structure PointEntry where
  driver_name : String
  team : String
  total_points : Int
deriving DecidableEq, Repr

/-- A constructor group accumulated by the reduce. -/
structure CGroup where
  team : String
  total_points : Int
  drivers : List String
deriving DecidableEq, Repr

/-- The body of the reduce once the group exists:
`if (!acc[team].drivers.includes(driver.driver_name)) { … }`. -/
def updateGroup (g : CGroup) (d : PointEntry) : CGroup :=
  if d.driver_name ∈ g.drivers then g
  else { team := g.team
         total_points := g.total_points + d.total_points
         drivers := g.drivers ++ [d.driver_name] }

/-- One step of the reduce: create the team's group at the end of the object
(insertion order) when absent, then run the membership-guarded update. -/
def addEntry (acc : List CGroup) (d : PointEntry) : List CGroup :=
  if acc.any (fun g => g.team == d.team) then
    acc.map (fun g => if g.team == d.team then updateGroup g d else g)
  else acc ++ [updateGroup ⟨d.team, 0, []⟩ d]

/-- `Object.values(standings.reduce(…, {}))`. -/
def constructorReduce (entries : List PointEntry) : List CGroup :=
  entries.foldl addEntry []

/-- The comparator `(a, b) => b.total_points - a.total_points` at line 545. -/
def teamCmp (a b : CGroup) : Int := b.total_points - a.total_points

/-- The sorted constructor standings (before the display-only `.slice(0, 3)`). -/
def constructorStandings (entries : List PointEntry) : List CGroup :=
  jsSort teamCmp (constructorReduce entries)

/-- What a single team's group accumulates to: the guarded update folded over
the entries of that team, starting from the freshly created group. -/
def teamFold (T : String) (entries : List PointEntry) : CGroup :=
  (entries.filter (fun e => e.team == T)).foldl updateGroup ⟨T, 0, []⟩

/-- First-occurrence deduplication by driver name, seeded with the names
already seen. -/
def dedupBy (seen : List String) : List PointEntry → List PointEntry
  | [] => []
  | e :: es =>
    if e.driver_name ∈ seen then dedupBy seen es
    else e :: dedupBy (seen ++ [e.driver_name]) es

/-! ## Stability of the numeric-key sort

`Array.prototype.sort` is stable (ES2019), so a comparator of the shape
`(a, b) => key(b) - key(a)` leaves elements with equal keys in their original
relative order.  `keyCmp` names that comparator shape and the lemmas below
prove the stability as a filter identity. -/

def keyCmp (key : α → Int) (a b : α) : Int := key b - key a

/-! ## Tire strategy chart (`src/frontend/components/TireStrategyChart.js`)

The component receives the strategy object `data` (driver name → stint
array).  Lines 50–60 compute `maxLaps` from the **last** element of each
driver's stint array; lines 62–88 push one dataset per stint whose
`start_lap` and `end_lap` pass `typeof x === 'number'`, in input order, with
`compoundColors[stint.compound] || '#808080'` as color.  Lines 41–45 and
173–179 are the guards for empty or non-object input. -/

/-- A raw stint record; a lap field is `some n` exactly when the JavaScript
value passes `typeof x === 'number'`, and the compound is `some c` when the
field is present (with any string value). -/
structure RawStint where
  start_lap : Option Int
  end_lap : Option Int
  compound : Option String
deriving DecidableEq, Repr

/-- A driver's value in the strategy object: `none` models a value failing
`Array.isArray`; a list element `none` models a null/undefined stint entry
(the `!stint` guard). -/
abbrev DriverStints := Option (List (Option RawStint))

/-- The `compoundColors` map, lines 4–10. -/
def compoundColors : List (String × String) :=
  [("SOFT", "#FF3333"), ("MEDIUM", "#FFD700"), ("HARD", "#FFFFFF"),
   ("INTERMEDIATE", "#00FF00"), ("WET", "#0000FF")]

/-- The dataset pushed for one stint (the chart-config fields that depend on
the stint). -/
structure Dataset where
  label : String
  x : Int
  width : Int
  compound : Option String
  backgroundColor : String
deriving DecidableEq, Repr

/-- `compoundColors[stint.compound] || '#808080'`; an absent compound indexes
as `undefined` and falls back, and every present map value is truthy. -/
def stintColor (comp : Option String) : String :=
  match comp with
  | some c => (compoundColors.lookup c).getD "#808080"
  | none => "#808080"

def mkDataset (driver : String) (s e : Int) (comp : Option String) : Dataset :=
  { label := driver, x := s, width := e - s, compound := comp,
    backgroundColor := stintColor comp }

/-- Lines 65–88: one driver's `stints.forEach` with the `!stint` and
numeric-lap guards; every surviving stint is pushed in input order. -/
def stintDatasets (driver : String) (stints : List (Option RawStint)) :
    List Dataset :=
  stints.filterMap (fun o =>
    match o with
    | none => none
    | some st =>
      match st.start_lap, st.end_lap with
      | some s, some e => some (mkDataset driver s e st.compound)
      | _, _ => none)

/-- Lines 62–88: `drivers.forEach` over the object's keys (insertion order),
skipping drivers whose value fails `Array.isArray`. -/
def buildDatasets (data : List (String × DriverStints)) : List Dataset :=
  data.flatMap (fun p =>
    match p.2 with
    | none => []
    | some stints => stintDatasets p.1 stints)

/-- Lines 50–60: the scaling loop reads only the last element of each
driver's stint array (`stints[stints.length - 1]`), requiring a non-empty
array, a non-null last entry and a numeric `end_lap`. -/
def lastEnd (v : DriverStints) : Option Int :=
  match v with
  | none => none
  | some l =>
    match l.getLast? with
    | none => none
    | some none => none
    | some (some st) => st.end_lap

/-- One iteration of the `maxLaps` loop:
`maxLaps = Math.max(maxLaps, lastStint.end_lap)` when the last stint
qualifies, else no change. -/
def maxStep (m : Int) (p : String × DriverStints) : Int :=
  match lastEnd p.2 with
  | some e => max m e
  | none => m

/-- `maxLaps` as computed at lines 50–60 (accumulator starts at `0`). -/
def maxLaps (data : List (String × DriverStints)) : Int :=
  data.foldl maxStep 0

/-- All numeric `end_lap` values of all stints of all drivers — what the
claim says `max_laps` is the maximum of. -/
def allStintEndLaps (data : List (String × DriverStints)) : List Int :=
  data.flatMap (fun p =>
    match p.2 with
    | none => []
    | some l => l.filterMap (fun o =>
        match o with
        | some st => st.end_lap
        | none => none))

/-! ### The dynamically-typed top level of the component

The `data` prop itself can be any JavaScript value; the guards at lines
41–45 (`typeof data !== 'object' || Object.keys(data).length === 0`, after
the `!data` early return at line 31) and 173–179 (`!data ||
Object.keys(data).length === 0`) inspect it dynamically.  `Object.keys` on
`null`/`undefined` throws a `TypeError`, which the embedding keeps as an
`Except` error so that "never raises" is a real statement. -/

inductive TireData where
  | jnull
  | jundef
  | jnum (n : Int)
  | jstr (s : String)
  | jbool (b : Bool)
  | jobj (entries : List (String × DriverStints))
deriving DecidableEq, Repr

/-- JavaScript truthiness of the modelled values. -/
def truthy : TireData → Bool
  | .jnull => false
  | .jundef => false
  | .jnum n => n != 0
  | .jstr s => s != ""
  | .jbool b => b
  | .jobj _ => true

/-- `typeof data === 'object'` (`typeof null` is `'object'` too). -/
def typeofIsObject : TireData → Bool
  | .jnull => true
  | .jobj _ => true
  | _ => false

/-- `Object.keys(data).length`: throws on `null`/`undefined`, is `0` on
numbers and booleans, the character count on a string, the key count on an
object. -/
def objectKeysLength : TireData → Except String Nat
  | .jnull => .error "TypeError"
  | .jundef => .error "TypeError"
  | .jnum _ => .ok 0
  | .jbool _ => .ok 0
  | .jstr s => .ok s.length
  | .jobj entries => .ok entries.length

/-- The object entries of a value already known to be a truthy object. -/
def asEntries : TireData → List (String × DriverStints)
  | .jobj entries => entries
  | _ => []

/-- The effect body (lines 30–45 plus the dataset build): `none` when it
returns before building datasets, paired with whether
`console.error('Invalid tire strategy data format')` ran.  The `!data` early
return fires before anything can throw; `||` short-circuits, so
`Object.keys` is only reached on truthy objects. -/
def effectRun (data : TireData) :
    Except String (Option (List Dataset) × Bool) :=
  if truthy data = false then .ok (none, false)
  else if typeofIsObject data = false then .ok (none, true)
  else do
    let n ← objectKeysLength data
    if n = 0 then pure (none, true)
    else pure (some (buildDatasets (asEntries data)), false)

/-- Lines 173–179: whether the render path shows "Tire strategy data is not
available for this race." -/
def unavailableMessage (data : TireData) : Except String Bool :=
  if truthy data = false then .ok true
  else do
    let n ← objectKeysLength data
    pure (n = 0)

/-- The input class of the claim: an empty strategy value (falsy, or an
object with no keys) or a value that is not an object at all. -/
def EmptyOrNonObject (data : TireData) : Prop :=
  truthy data = false ∨ typeofIsObject data = false ∨ data = .jobj []

/-! ## Race completion and per-race data fetching

`src/unnamed/part_006` (the schedule page) guards its race-results fetch with
the date-based `isRaceCompleted` (lines 52–63, 116–135).
`src/frontend/pages/races.js` instead selects any clicked race
unconditionally (line 280) and its effects fetch positions, team pace and
tire strategy for whatever race is selected (lines 80, 102, 124). -/

/-- Splitting on `'-'`, on the character list (the semantics of
`String.splitOn "-"`). -/
def splitOnDash : List Char → List (List Char)
  | [] => [[]]
  | c :: cs =>
    let rest := splitOnDash cs
    if c = '-' then [] :: rest
    else
      match rest with
      | r :: rs => (c :: r) :: rs
      | [] => [[c]]

/-- A non-empty all-digit chunk read as a number (the semantics of
`String.toNat?`). -/
def chunkToNat? (cs : List Char) : Option Nat :=
  if cs ≠ [] ∧ cs.all Char.isDigit then
    some (cs.foldl (fun n c => n * 10 + (c.toNat - 48)) 0)
  else none

/-- Order-preserving model of `new Date(s + 'T00:00:00Z')` for a `YYYY-MM-DD`
string: a parseable date maps to `y·10000 + m·100 + d` (monotone in the date
for calendar values), an unparseable one to `none` (JavaScript's
`Invalid Date`, whose `<` comparison is always false). -/
def parseRaceDate (s : String) : Option Int :=
  match splitOnDash s.data with
  | [y, m, d] =>
    match chunkToNat? y, chunkToNat? m, chunkToNat? d with
    | some yn, some mn, some dn => some ((yn : Int) * 10000 + mn * 100 + dn)
    | _, _, _ => none
  | _ => none

/-- `isRaceCompleted` (part_006, lines 52–63): false for a missing, empty or
`'Unknown'` date (the `!raceDate || raceDate === 'Unknown'` guard), otherwise
whether the race's midnight-UTC instant is strictly before `now`. -/
def isRaceCompleted (raceDate : Option String) (now : Int) : Bool :=
  match raceDate with
  | none => false
  | some s =>
    if s = "" ∨ s = "Unknown" then false
    else
      match parseRaceDate s with
      | none => false
      | some t => decide (t < now)

structure Race where
  round : Nat
  date : Option String
deriving DecidableEq, Repr

inductive FetchKind where
  | raceResults
  | positions
  | teamPace
  | tireStrategy
deriving DecidableEq, Repr

/-- A request the frontend issues to the backend for per-race data. -/
structure FetchReq where
  kind : FetchKind
  round : Nat
deriving DecidableEq, Repr

/-- `handleRaceClick` (part_006, lines 116–135): the race-results fetch is
issued only when `isRaceCompleted(race.date)`. -/
def handleRaceClick (race : Race) (now : Int) : Option FetchReq :=
  if isRaceCompleted race.date now then some ⟨.raceResults, race.round⟩
  else none

/-- The races page: clicking stores the race unconditionally and the three
per-race effects fire for any selected race, with no date check
(`races.js` lines 80, 102, 124, 280). -/
def racesPageFetches (selectedRace : Option Race) : List FetchReq :=
  match selectedRace with
  | none => []
  | some r =>
    [⟨.positions, r.round⟩, ⟨.teamPace, r.round⟩, ⟨.tireStrategy, r.round⟩]

/-! ## Record Normalizer identity policy -/

/-- Modelled from the spec: a raw record as seen by the backend Record
Normalizer; only the identity fields matter for the drop policy. -/
structure RawRecord where
  driver_name : Option String
  team : Option String
deriving DecidableEq, Repr

/-- Modelled from the spec: "each raw record must carry a recognizable driver
or team identity" (§4.1). -/
def hasIdentity (r : RawRecord) : Bool :=
  r.driver_name.isSome || r.team.isSome

/-- Modelled from the spec: the backend Record Normalizer (the FastAPI
service, whose Python sources are not under `src/`; only its Dockerfile and
start scripts are) drops a record missing required identity fields entirely
(§4.1: "a record missing required identity fields is dropped entirely"). -/
def normalizeRecords (recs : List RawRecord) : List RawRecord :=
  recs.filter hasIdentity

/-! ## Example inputs used by witnesses -/

def c1Entries : List PointEntry :=
  [⟨"Max Verstappen", "Red Bull", 100⟩, ⟨"Max Verstappen", "Red Bull", 100⟩,
   ⟨"Sergio Perez", "Red Bull", 80⟩]

def c1Group : CGroup := ⟨"Red Bull", 180, ["Max Verstappen", "Sergio Perez"]⟩

def c3VerStints : List (Option RawStint) :=
  [some ⟨some 1, some 20, some "SOFT"⟩, some ⟨some 15, some 30, some "MEDIUM"⟩]

def c3Data : List (String × DriverStints) :=
  [("VER", some c3VerStints), ("HAM", some [some ⟨some 3, some 10, none⟩])]

def c10Data : List (String × DriverStints) :=
  [("VER", some [some ⟨some 1, some 20, some "SUPERSOFT"⟩])]

/-! ## Theorems -/

theorem mem_insertCmp (cmp : α → α → Int) (x : α) (l : List α) (z : α) :
    z ∈ insertCmp cmp x l ↔ z = x ∨ z ∈ l := by
  induction l with
  | nil => simp [insertCmp]
  | cons y ys ih =>
    by_cases h : cmp x y < 0
    · simp [insertCmp, h]
    · simp only [insertCmp, if_neg h, List.mem_cons, ih]
      tauto

theorem insertCmp_perm (cmp : α → α → Int) (x : α) (l : List α) :
    (insertCmp cmp x l).Perm (x :: l) := by
  induction l with
  | nil => simp [insertCmp]
  | cons y ys ih =>
    by_cases h : cmp x y < 0
    · simp [insertCmp, h]
    · simp only [insertCmp, if_neg h]
      exact (ih.cons y).trans (List.Perm.swap x y ys)

theorem foldl_insertCmp_perm (cmp : α → α → Int) :
    ∀ (l acc : List α), (l.foldl (fun acc x => insertCmp cmp x acc) acc).Perm (acc ++ l)
  | [], acc => by simp
  | x :: xs, acc => by
    have h1 := foldl_insertCmp_perm cmp xs (insertCmp cmp x acc)
    have h2 : (insertCmp cmp x acc ++ xs).Perm (acc ++ x :: xs) := by
      have := (insertCmp_perm cmp x acc).append_right xs
      exact this.trans (List.perm_middle.symm)
    exact (List.foldl_cons .. ▸ h1).trans h2

theorem jsSort_perm (cmp : α → α → Int) (l : List α) : (jsSort cmp l).Perm l :=
  (foldl_insertCmp_perm cmp l []).trans (by simp)

theorem pairwise_insertCmp {cmp : α → α → Int} (hc : CmpConsistent cmp)
    (ht : CmpTrans cmp) (x : α) {l : List α}
    (hl : l.Pairwise (fun a b => cmp a b ≤ 0)) :
    (insertCmp cmp x l).Pairwise (fun a b => cmp a b ≤ 0) := by
  induction l with
  | nil => simp [insertCmp]
  | cons y ys ih =>
    rcases List.pairwise_cons.mp hl with ⟨hy, hys⟩
    by_cases h : cmp x y < 0
    · rw [insertCmp, if_pos h]
      refine List.pairwise_cons.mpr ⟨?_, hl⟩
      intro z hz
      rcases List.mem_cons.mp hz with rfl | hz
      · exact le_of_lt h
      · exact ht x y z (le_of_lt h) (hy z hz)
    · rw [insertCmp, if_neg h]
      refine List.pairwise_cons.mpr ⟨?_, ih hys⟩
      intro z hz
      rcases (mem_insertCmp cmp x ys z).mp hz with rfl | hz
      · exact hc _ y h
      · exact hy z hz

theorem pairwise_jsSort {cmp : α → α → Int} (hc : CmpConsistent cmp)
    (ht : CmpTrans cmp) (l : List α) :
    (jsSort cmp l).Pairwise (fun a b => cmp a b ≤ 0) := by
  suffices h : ∀ (l acc : List α), acc.Pairwise (fun a b => cmp a b ≤ 0) →
      (l.foldl (fun acc x => insertCmp cmp x acc) acc).Pairwise
        (fun a b => cmp a b ≤ 0) from h l [] (by simp)
  intro l
  induction l with
  | nil => intro acc h; simpa using h
  | cons x xs ih =>
    intro acc hacc
    exact ih (insertCmp cmp x acc) (pairwise_insertCmp hc ht x hacc)

theorem localeCmp_le_iff (a b : String) :
    localeCmp a b ≤ 0 ↔ a.toLower ≤ b.toLower := by
  unfold localeCmp
  by_cases h1 : a.toLower < b.toLower
  · simp [h1, le_of_lt h1]
  · by_cases h2 : b.toLower < a.toLower
    · simp [h1, h2, not_le.mpr h2]
    · simp [h1, h2, le_of_not_lt h2]

theorem driverCmp_consistent : CmpConsistent driverCmp := by
  intro a b h
  rcases ha : a.position with _ | pa <;> rcases hb : b.position with _ | pb <;>
      simp only [driverCmp, ha, hb] at h ⊢ <;>
    first
      | omega
      | (unfold localeCmp at h ⊢; split_ifs at h ⊢ <;> omega)

theorem driverCmp_trans : CmpTrans driverCmp := by
  intro a b c hab hbc
  rcases ha : a.position with _ | pa <;> rcases hb : b.position with _ | pb <;>
      rcases hc : c.position with _ | pc <;>
      simp only [driverCmp, ha, hb, hc] at hab hbc ⊢ <;>
    first
      | omega
      | (rw [localeCmp_le_iff] at hab hbc ⊢; exact le_trans hab hbc)

theorem driverCmp_le_iff (a b : MergedDriver) :
    driverCmp a b ≤ 0 ↔ DriverOrder a b := by
  rcases ha : a.position with _ | pa <;> rcases hb : b.position with _ | pb <;>
      simp only [driverCmp, DriverOrder, ha, hb] <;>
    first
      | exact localeCmp_le_iff _ _
      | decide
      | omega

theorem updateGroup_team (g : CGroup) (d : PointEntry) :
    (updateGroup g d).team = g.team := by
  unfold updateGroup; split <;> rfl

theorem foldl_updateGroup_spec :
    ∀ (l : List PointEntry) (g : CGroup),
      (l.foldl updateGroup g).team = g.team ∧
      (l.foldl updateGroup g).total_points =
        g.total_points + ((dedupBy g.drivers l).map (fun e => e.total_points)).sum ∧
      (l.foldl updateGroup g).drivers =
        g.drivers ++ (dedupBy g.drivers l).map (fun e => e.driver_name)
  | [], g => by simp [dedupBy]
  | e :: es, g => by
    rw [List.foldl_cons]
    by_cases hmem : e.driver_name ∈ g.drivers
    · have hg : updateGroup g e = g := if_pos hmem
      have ih := foldl_updateGroup_spec es g
      simp only [hg, dedupBy, if_pos hmem]
      exact ih
    · have hg : updateGroup g e =
          ⟨g.team, g.total_points + e.total_points, g.drivers ++ [e.driver_name]⟩ :=
        if_neg hmem
      have ih := foldl_updateGroup_spec es
        ⟨g.team, g.total_points + e.total_points, g.drivers ++ [e.driver_name]⟩
      rw [hg]
      simp only [dedupBy, if_neg hmem] at *
      refine ⟨ih.1, ?_, ?_⟩
      · rw [ih.2.1]; simp only [List.map_cons, List.sum_cons]; ring
      · rw [ih.2.2]; simp

/-- Names produced by `dedupBy` are new and pairwise distinct. -/
theorem dedupBy_names_nodup :
    ∀ (l : List PointEntry) (seen : List String),
      ((dedupBy seen l).map (fun e => e.driver_name)).Nodup ∧
      ∀ n ∈ (dedupBy seen l).map (fun e => e.driver_name), n ∉ seen
  | [], seen => by simp [dedupBy]
  | e :: es, seen => by
    by_cases hmem : e.driver_name ∈ seen
    · simp only [dedupBy, if_pos hmem]
      exact dedupBy_names_nodup es seen
    · have ih := dedupBy_names_nodup es (seen ++ [e.driver_name])
      simp only [dedupBy, if_neg hmem, List.map_cons, List.nodup_cons]
      refine ⟨⟨fun hc => ?_, ih.1⟩, ?_⟩
      · exact (ih.2 _ hc) (by simp)
      · intro n hn
        rcases List.mem_cons.mp hn with rfl | hn
        · exact hmem
        · intro hns
          exact ih.2 n hn (by simp [hns])

theorem teamFold_append (T : String) (pre : List PointEntry) (d : PointEntry) :
    teamFold T (pre ++ [d]) =
      if d.team = T then updateGroup (teamFold T pre) d else teamFold T pre := by
  unfold teamFold
  rw [List.filter_append, List.foldl_append]
  by_cases h : d.team = T
  · simp [h]
  · simp [List.filter_cons, h]

theorem foldl_addEntry_inv :
    ∀ (l pre : List PointEntry) (acc : List CGroup),
      (∀ g ∈ acc, g = teamFold g.team pre) →
      (∀ T : String, (∃ g ∈ acc, g.team = T) ↔ ∃ e ∈ pre, e.team = T) →
      ∀ g ∈ l.foldl addEntry acc, g = teamFold g.team (pre ++ l)
  | [], pre, acc, h1, _h2 => by simpa using h1
  | d :: ds, pre, acc, h1, h2 => by
    rw [List.foldl_cons, show pre ++ d :: ds = (pre ++ [d]) ++ ds by simp]
    apply foldl_addEntry_inv ds (pre ++ [d]) (addEntry acc d)
    · intro g hg
      by_cases hany : (acc.any fun g => g.team == d.team) = true
      · rw [addEntry, if_pos hany] at hg
        rcases List.mem_map.mp hg with ⟨g₀, hg₀, rfl⟩
        by_cases hteam : g₀.team = d.team
        · rw [if_pos (show (g₀.team == d.team) = true by simp [hteam])]
          rw [show (updateGroup g₀ d).team = g₀.team from updateGroup_team _ _,
            teamFold_append, if_pos hteam.symm, ← h1 g₀ hg₀]
        · rw [if_neg (show ¬ (g₀.team == d.team) = true by simp [hteam])]
          rw [teamFold_append, if_neg (fun hdt => hteam hdt.symm)]
          exact h1 g₀ hg₀
      · rw [addEntry, if_neg hany] at hg
        rcases List.mem_append.mp hg with hg₀ | hg₀
        · have hne : g.team ≠ d.team := by
            intro hc
            exact hany (List.any_eq_true.mpr ⟨g, hg₀, by simp [hc]⟩)
          rw [teamFold_append, if_neg (fun hdt => hne hdt.symm)]
          exact h1 g hg₀
        · have hgeq : g = updateGroup ⟨d.team, 0, []⟩ d := by simpa using hg₀
          have hpre : teamFold d.team pre = ⟨d.team, 0, []⟩ := by
            unfold teamFold
            have hnil : pre.filter (fun e => e.team == d.team) = [] := by
              rw [List.filter_eq_nil_iff]
              intro e he hc
              have hex : ∃ g ∈ acc, g.team = d.team :=
                (h2 d.team).mpr ⟨e, he, by simpa using hc⟩
              rcases hex with ⟨g', hg', hg't⟩
              exact hany (List.any_eq_true.mpr ⟨g', hg', by simp [hg't]⟩)
            rw [hnil, List.foldl_nil]
          rw [hgeq,
            show (updateGroup ⟨d.team, 0, []⟩ d).team = d.team from
              updateGroup_team _ _,
            teamFold_append, if_pos rfl, hpre]
    · intro T
      constructor
      · rintro ⟨g, hg, rfl⟩
        by_cases hany : (acc.any fun g => g.team == d.team) = true
        · rw [addEntry, if_pos hany] at hg
          rcases List.mem_map.mp hg with ⟨g₀, hg₀, rfl⟩
          have hT : (if (g₀.team == d.team) = true then updateGroup g₀ d
              else g₀).team = g₀.team := by
            split
            · exact updateGroup_team _ _
            · rfl
          rw [hT]
          rcases (h2 g₀.team).mp ⟨g₀, hg₀, rfl⟩ with ⟨e, he, het⟩
          exact ⟨e, List.mem_append_left _ he, het⟩
        · rw [addEntry, if_neg hany] at hg
          rcases List.mem_append.mp hg with hg₀ | hg₀
          · rcases (h2 g.team).mp ⟨g, hg₀, rfl⟩ with ⟨e, he, het⟩
            exact ⟨e, List.mem_append_left _ he, het⟩
          · have hgeq : g = updateGroup ⟨d.team, 0, []⟩ d := by simpa using hg₀
            refine ⟨d, List.mem_append_right _ (by simp), ?_⟩
            rw [hgeq, updateGroup_team]
      · rintro ⟨e, he, rfl⟩
        rcases List.mem_append.mp he with he₀ | he₀
        · rcases (h2 e.team).mpr ⟨e, he₀, rfl⟩ with ⟨g, hg, hgt⟩
          by_cases hany : (acc.any fun g => g.team == d.team) = true
          · refine ⟨if (g.team == d.team) = true then updateGroup g d else g,
              ?_, ?_⟩
            · rw [addEntry, if_pos hany]
              exact List.mem_map.mpr ⟨g, hg, rfl⟩
            · split
              · rw [updateGroup_team]; exact hgt
              · exact hgt
          · refine ⟨g, ?_, hgt⟩
            rw [addEntry, if_neg hany]
            exact List.mem_append_left _ hg
        · have hed : e = d := by simpa using he₀
          rw [hed]
          by_cases hany : (acc.any fun g => g.team == d.team) = true
          · rcases List.any_eq_true.mp hany with ⟨g', hg', hgt⟩
            refine ⟨updateGroup g' d, ?_, ?_⟩
            · rw [addEntry, if_pos hany]
              exact List.mem_map.mpr ⟨g', hg', by rw [if_pos hgt]⟩
            · rw [updateGroup_team]
              simpa using hgt
          · refine ⟨updateGroup ⟨d.team, 0, []⟩ d, ?_, ?_⟩
            · rw [addEntry, if_neg hany]
              exact List.mem_append_right _ (by simp)
            · rw [updateGroup_team]

/-- Every group of the reduce's output is the guarded fold of its team's
entries. -/
theorem constructorReduce_eq_teamFold (entries : List PointEntry) (g : CGroup)
    (hg : g ∈ constructorReduce entries) : g = teamFold g.team entries := by
  have := foldl_addEntry_inv entries [] []
    (by intro g hg; simp at hg) (by intro T; simp) g hg
  simpa using this

theorem keyCmp_consistent (key : α → Int) : CmpConsistent (keyCmp key) := by
  intro a b h
  unfold keyCmp at *
  omega

theorem keyCmp_trans (key : α → Int) : CmpTrans (keyCmp key) := by
  intro a b c hab hbc
  unfold keyCmp at *
  omega

theorem filter_insertCmp_of_neg (cmp : α → α → Int) (x : α) (l : List α)
    (p : α → Bool) (hx : p x = false) :
    (insertCmp cmp x l).filter p = l.filter p := by
  induction l with
  | nil => simp [insertCmp, hx]
  | cons y ys ih =>
    by_cases h : cmp x y < 0
    · simp [insertCmp, h, List.filter_cons, hx]
    · rw [insertCmp, if_neg h, List.filter_cons, List.filter_cons, ih]

theorem filter_insertCmp_of_pos (key : α → Int) (x : α) (k : Int)
    (hk : key x = k) :
    ∀ l : List α, l.Pairwise (fun a b => keyCmp key a b ≤ 0) →
      (insertCmp (keyCmp key) x l).filter (fun z => key z == k) =
        l.filter (fun z => key z == k) ++ [x]
  | [] => by simp [insertCmp, hk]
  | y :: ys => by
    intro hl
    rcases List.pairwise_cons.mp hl with ⟨hy, hys⟩
    by_cases hlt : keyCmp key x y < 0
    · rw [insertCmp, if_pos hlt]
      have hky : key y < k := by unfold keyCmp at hlt; omega
      have hnil : (y :: ys).filter (fun z => key z == k) = [] := by
        rw [List.filter_eq_nil_iff]
        intro z hz
        rcases List.mem_cons.mp hz with rfl | hz
        · simp; omega
        · have := hy z hz
          unfold keyCmp at this
          simp; omega
      rw [List.filter_cons_of_pos (by simp [hk]), hnil]
      simp
    · rw [insertCmp, if_neg hlt]
      have ih := filter_insertCmp_of_pos key x k hk ys hys
      by_cases hpy : (key y == k) = true
      · simp [List.filter_cons, hpy, ih]
      · simp [List.filter_cons, hpy, ih]

/-- Stability of the JavaScript sort for a numeric-key descending comparator:
the elements with any fixed key keep their input order. -/
theorem jsSort_filter_key (key : α → Int) (l : List α) (k : Int) :
    (jsSort (keyCmp key) l).filter (fun z => key z == k) =
      l.filter (fun z => key z == k) := by
  suffices h : ∀ (l acc : List α),
      acc.Pairwise (fun a b => keyCmp key a b ≤ 0) →
      (l.foldl (fun acc x => insertCmp (keyCmp key) x acc) acc).filter
          (fun z => key z == k) =
        acc.filter (fun z => key z == k) ++ l.filter (fun z => key z == k) by
    simpa using h l [] (by simp)
  intro l
  induction l with
  | nil => intro acc _; simp
  | cons x xs ih =>
    intro acc hacc
    rw [List.foldl_cons,
      ih _ (pairwise_insertCmp (keyCmp_consistent key) (keyCmp_trans key) x hacc)]
    by_cases hx : (key x == k) = true
    · rw [filter_insertCmp_of_pos key x k (by simpa using hx) acc hacc]
      simp [List.filter_cons, hx]
    · rw [filter_insertCmp_of_neg _ x acc _ (by simpa using hx)]
      simp [List.filter_cons, hx]

/-! ## Remaining helper lemmas -/

theorem teamFold_spec (T : String) (entries : List PointEntry) :
    (teamFold T entries).total_points =
      ((dedupBy [] (entries.filter (fun e => e.team == T))).map
        (fun e => e.total_points)).sum ∧
    (teamFold T entries).drivers =
      (dedupBy [] (entries.filter (fun e => e.team == T))).map
        (fun e => e.driver_name) := by
  obtain ⟨_, htp, hdr⟩ :=
    foldl_updateGroup_spec (entries.filter (fun e => e.team == T)) ⟨T, 0, []⟩
  exact ⟨by simpa using htp, by simpa using hdr⟩

theorem stintDatasets_label (driver : String) (stints : List (Option RawStint)) :
    ∀ ds ∈ stintDatasets driver stints, ds.label = driver := by
  intro ds hds
  rcases List.mem_filterMap.mp hds with ⟨o, _, ho⟩
  rcases o with _ | st
  · simp [stintDatasets] at ho
  · rcases hs : st.start_lap with _ | s <;> rcases he : st.end_lap with _ | e
    · exact absurd ho (by simp [hs, he])
    · exact absurd ho (by simp [hs, he])
    · exact absurd ho (by simp [hs, he])
    · simp only [hs, he] at ho
      have hds' : mkDataset driver s e st.compound = ds := by injection ho
      rw [← hds']
      rfl

theorem buildDatasets_label (data : List (String × DriverStints)) :
    ∀ ds ∈ buildDatasets data, ds.label ∈ data.map Prod.fst := by
  intro ds hds
  rcases List.mem_flatMap.mp hds with ⟨p, hp, hdsp⟩
  rcases h2 : p.2 with _ | stints
  · rw [h2] at hdsp; simp at hdsp
  · rw [h2] at hdsp
    rw [stintDatasets_label p.1 stints ds hdsp]
    exact List.mem_map.mpr ⟨p, hp, rfl⟩

theorem maxStep_le (m : Int) (p : String × DriverStints) : m ≤ maxStep m p := by
  unfold maxStep
  rcases lastEnd p.2 with _ | e
  · exact le_refl m
  · exact le_max_left m e

theorem foldl_maxStep_mono :
    ∀ (l : List (String × DriverStints)) (m : Int), m ≤ l.foldl maxStep m
  | [], m => le_refl m
  | p :: ps, m =>
    le_trans (maxStep_le m p) (foldl_maxStep_mono ps (maxStep m p))

theorem foldl_maxStep_ub :
    ∀ (l : List (String × DriverStints)) (m : Int), ∀ q ∈ l, ∀ e,
      lastEnd q.2 = some e → e ≤ l.foldl maxStep m
  | [], _, q, hq, _, _ => absurd hq (by simp)
  | p :: ps, m, q, hq, e, he => by
    rw [List.foldl_cons]
    rcases List.mem_cons.mp hq with rfl | hq
    · have h1 : e ≤ maxStep m q := by
        unfold maxStep
        rw [he]
        exact le_max_right m e
      exact le_trans h1 (foldl_maxStep_mono ps (maxStep m q))
    · exact foldl_maxStep_ub ps (maxStep m p) q hq e he

theorem foldl_maxStep_attained :
    ∀ (l : List (String × DriverStints)) (m : Int),
      l.foldl maxStep m = m ∨ ∃ p ∈ l, lastEnd p.2 = some (l.foldl maxStep m)
  | [], m => Or.inl rfl
  | p :: ps, m => by
    rw [List.foldl_cons]
    rcases foldl_maxStep_attained ps (maxStep m p) with h | ⟨q, hq, hqe⟩
    · rw [h]
      rcases hle : lastEnd p.2 with _ | e
      · unfold maxStep
        rw [hle]
        exact Or.inl rfl
      · have hms : maxStep m p = max m e := by unfold maxStep; rw [hle]
        rw [hms]
        rcases max_choice m e with hm | hm
        · rw [hm]; exact Or.inl rfl
        · rw [hm]; exact Or.inr ⟨p, List.mem_cons_self p ps, hle⟩
    · exact Or.inr ⟨q, List.mem_cons_of_mem p hq, hqe⟩

/-! ## The claims -/

/-- C1: for every list of driver point entries, the constructor total
computed for a team T equals the sum of `total_points` over the distinct
driver names assigned to T (first occurrence of each name wins); a second
entry with an already-seen driver name contributes neither its points nor a
second entry in the team's drivers list, which is duplicate-free. -/
theorem claim_c1_constructor_total (entries : List PointEntry) (g : CGroup)
    (hg : g ∈ constructorReduce entries) :
    g.total_points =
      ((dedupBy [] (entries.filter (fun e => e.team == g.team))).map
        (fun e => e.total_points)).sum ∧
    g.drivers =
      (dedupBy [] (entries.filter (fun e => e.team == g.team))).map
        (fun e => e.driver_name) ∧
    g.drivers.Nodup := by
  have hgf := constructorReduce_eq_teamFold entries g hg
  have hs := teamFold_spec g.team entries
  refine ⟨?_, ?_, ?_⟩
  · conv_lhs => rw [hgf]
    exact hs.1
  · conv_lhs => rw [hgf]
    exact hs.2
  · have hdr : g.drivers =
        (dedupBy [] (entries.filter (fun e => e.team == g.team))).map
          (fun e => e.driver_name) := by
      conv_lhs => rw [hgf]
      exact hs.2
    rw [hdr]
    exact (dedupBy_names_nodup _ []).1

/-- Witness for C1: a duplicated driver entry is counted once. -/
theorem claim_c1_witness :
    c1Group ∈ constructorReduce c1Entries ∧
    (c1Group.total_points =
      ((dedupBy [] (c1Entries.filter (fun e => e.team == c1Group.team))).map
        (fun e => e.total_points)).sum ∧
     c1Group.drivers =
      (dedupBy [] (c1Entries.filter (fun e => e.team == c1Group.team))).map
        (fun e => e.driver_name) ∧
     c1Group.drivers.Nodup) :=
  ⟨by decide, claim_c1_constructor_total c1Entries c1Group (by decide)⟩

/-- C2 is false as stated: the comparator of `drivers.js` never reads
`total_points`; here the entry with 5 points sorts before the entry with 10
points because its carried-over position is smaller. -/
theorem claim_c2_counterexample :
    sortDrivers
        [⟨"Alpha", "T1", 10, 10, 0, 0, some 2⟩,
         ⟨"Bravo", "T2", 5, 5, 0, 0, some 1⟩] =
      [⟨"Bravo", "T2", 5, 5, 0, 0, some 1⟩,
       ⟨"Alpha", "T1", 10, 10, 0, 0, some 2⟩] ∧
    (5 : Int) < 10 := by decide

/-- C2 amended: the driver standings output is ordered by the carried-over
numeric rank — entries with a rank before entries without one and among
themselves ascending by rank — and entries both lacking a rank are ordered
by driver name ascending, case-insensitively; `total_points` plays no role.
The output is a permutation of the input. -/
theorem claim_c2_amended (l : List MergedDriver) :
    (sortDrivers l).Pairwise DriverOrder ∧ (sortDrivers l).Perm l :=
  ⟨(pairwise_jsSort driverCmp_consistent driverCmp_trans l).imp
      (fun h => (driverCmp_le_iff _ _).mp h),
    jsSort_perm driverCmp l⟩

/-- C3 is false as stated: on the spec's own example the chart keeps **both**
stints — the later, overlapping stint `{15,30}` appears in the output (the
intervals are `[(1,20), (15,30)]` and `15 < 20`), so nothing is rejected and
the output is not pairwise non-overlapping. -/
theorem claim_c3_counterexample :
    (buildDatasets [("VER", some [some ⟨some 1, some 20, some "SOFT"⟩,
        some ⟨some 15, some 30, some "MEDIUM"⟩])]).map
        (fun ds => (ds.x, ds.x + ds.width)) = [(1, 20), (15, 30)] ∧
    (15 : Int) < 20 := by decide

/-- For distinct driver keys, the chart's output for one driver is exactly
the numeric-lap stints of that driver's input list, in input order. -/
theorem buildDatasets_filter_of_mem :
    ∀ (data : List (String × DriverStints)) (driver : String)
      (stints : List (Option RawStint)),
      (data.map Prod.fst).Nodup → (driver, some stints) ∈ data →
      (buildDatasets data).filter (fun ds => ds.label == driver) =
        stintDatasets driver stints
  | [], _, _, _, hmem => absurd hmem (by simp)
  | p :: ps, driver, stints, hnd, hmem => by
    have hnd' : (ps.map Prod.fst).Nodup :=
      (List.nodup_cons.mp (by simpa using hnd)).2
    have hp1nin : p.1 ∉ ps.map Prod.fst :=
      (List.nodup_cons.mp (by simpa using hnd)).1
    have hcons : buildDatasets (p :: ps) =
        (match p.2 with
         | none => []
         | some s => stintDatasets p.1 s) ++ buildDatasets ps := rfl
    rcases List.mem_cons.mp hmem with heq | hmem'
    · have hp1 : p.1 = driver := by rw [← heq]
      have hp2 : p.2 = some stints := by rw [← heq]
      rw [hcons, hp2, hp1, List.filter_append]
      have hself : (stintDatasets driver stints).filter
          (fun ds => ds.label == driver) = stintDatasets driver stints :=
        List.filter_eq_self.mpr
          (fun ds hds => by simp [stintDatasets_label driver stints ds hds])
      have hrest : (buildDatasets ps).filter (fun ds => ds.label == driver) =
          [] := by
        rw [List.filter_eq_nil_iff]
        intro ds hds
        have hl := buildDatasets_label ps ds hds
        simp only [beq_iff_eq]
        intro hc
        rw [hc] at hl
        rw [hp1] at hp1nin
        exact hp1nin hl
      rw [hself, hrest, List.append_nil]
    · have hp1ne : p.1 ≠ driver := by
        intro hc
        apply hp1nin
        rw [hc]
        exact List.mem_map.mpr ⟨(driver, some stints), hmem', rfl⟩
      rcases h2 : p.2 with _ | s
      · have hcons2 : buildDatasets (p :: ps) = buildDatasets ps := by
          show (match p.2 with
            | none => []
            | some s => stintDatasets p.1 s) ++ buildDatasets ps =
              buildDatasets ps
          rw [h2]
          rfl
        rw [hcons2]
        exact buildDatasets_filter_of_mem ps driver stints hnd' hmem'
      · have hcons2 : buildDatasets (p :: ps) =
            stintDatasets p.1 s ++ buildDatasets ps := by
          show (match p.2 with
            | none => []
            | some s => stintDatasets p.1 s) ++ buildDatasets ps =
              stintDatasets p.1 s ++ buildDatasets ps
          rw [h2]
        rw [hcons2, List.filter_append]
        have hhead : (stintDatasets p.1 s).filter
            (fun ds => ds.label == driver) = [] := by
          rw [List.filter_eq_nil_iff]
          intro ds hds
          have hlab := stintDatasets_label p.1 s ds hds
          simp only [beq_iff_eq]
          rw [hlab]
          exact hp1ne
        rw [hhead, List.nil_append]
        exact buildDatasets_filter_of_mem ps driver stints hnd' hmem'

/-- C3 amended: the chart performs no sorting and no overlap rejection — for
each driver (under distinct driver keys) the output retains exactly the
stints whose two lap fields are numeric, in input order, overlapping or
not. -/
theorem claim_c3_amended (data : List (String × DriverStints))
    (driver : String) (stints : List (Option RawStint))
    (hnd : (data.map Prod.fst).Nodup) (hmem : (driver, some stints) ∈ data) :
    (buildDatasets data).filter (fun ds => ds.label == driver) =
      stintDatasets driver stints :=
  buildDatasets_filter_of_mem data driver stints hnd hmem

/-- Witness for C3 (amended) on a two-driver input. -/
theorem claim_c3_witness :
    ((c3Data.map Prod.fst).Nodup ∧ ("VER", some c3VerStints) ∈ c3Data) ∧
    (buildDatasets c3Data).filter (fun ds => ds.label == "VER") =
      stintDatasets "VER" c3VerStints :=
  ⟨⟨by decide, by decide⟩,
   claim_c3_amended c3Data "VER" c3VerStints (by decide) (by decide)⟩

/-- C4 is false as stated: two teams with equal summed points are left in
first-appearance order, not sorted by name — here "Zeta" stays before
"Alpha" although "Alpha" precedes it alphabetically. -/
theorem claim_c4_counterexample :
    constructorStandings
        [⟨"Driver One", "Zeta", 10⟩, ⟨"Driver Two", "Alpha", 10⟩] =
      [⟨"Zeta", 10, ["Driver One"]⟩, ⟨"Alpha", 10, ["Driver Two"]⟩] ∧
    ("Alpha" : String).data < "Zeta".data := by decide

/-- C4 amended: the constructor groups are ordered by summed `total_points`
descending; no name tie-break is applied — the sort is stable, so teams with
any fixed summed total keep their first-appearance order, and the output is
a permutation of the grouped input. -/
theorem claim_c4_amended (entries : List PointEntry) :
    (constructorStandings entries).Pairwise
      (fun a b => b.total_points ≤ a.total_points) ∧
    (constructorStandings entries).Perm (constructorReduce entries) ∧
    ∀ t : Int,
      (constructorStandings entries).filter (fun g => g.total_points == t) =
        (constructorReduce entries).filter (fun g => g.total_points == t) := by
  refine ⟨?_, jsSort_perm _ _, ?_⟩
  · have h := pairwise_jsSort
      (keyCmp_consistent (fun g : CGroup => g.total_points))
      (keyCmp_trans (fun g : CGroup => g.total_points))
      (constructorReduce entries)
    exact h.imp (fun hab => by simp only [keyCmp] at hab; omega)
  · intro t
    exact jsSort_filter_key (fun g : CGroup => g.total_points)
      (constructorReduce entries) t

/-- C5 is false as stated: with a driver's stints listed out of order, the
code reads only the last listed stint, reporting 4 although the maximum
`end_lap` over all stints is 30. -/
theorem claim_c5_counterexample :
    maxLaps [("D", some [some ⟨some 5, some 30, none⟩,
        some ⟨some 1, some 4, none⟩])] = 4 ∧
    (allStintEndLaps [("D", some [some ⟨some 5, some 30, none⟩,
        some ⟨some 1, some 4, none⟩])]).foldl max 0 = 30 ∧
    (4 : Int) ≠ 30 := by decide

/-- C5 amended: `max_laps` is the maximum of 0 and the `end_lap` of each
driver's **last listed** stint (when numeric): it is nonnegative, bounds
every such last `end_lap`, and is 0 or attained by some driver's last
stint.  It therefore depends on the listing order of each driver's stints. -/
theorem claim_c5_amended (data : List (String × DriverStints)) :
    0 ≤ maxLaps data ∧
    (∀ p ∈ data, ∀ e, lastEnd p.2 = some e → e ≤ maxLaps data) ∧
    (maxLaps data = 0 ∨ ∃ p ∈ data, lastEnd p.2 = some (maxLaps data)) :=
  ⟨foldl_maxStep_mono data 0, foldl_maxStep_ub data 0,
   foldl_maxStep_attained data 0⟩

/-- C6 is false as stated: permuting two entries that tie on the comparator
(equal carried-over position) changes the output order, so the aggregation
is not order-independent. -/
theorem claim_c6_counterexample :
    List.Perm
        [(⟨"Alpha", "T", 0, 0, 0, 0, some 1⟩ : MergedDriver),
         ⟨"Bravo", "T", 0, 0, 0, 0, some 1⟩]
        [⟨"Bravo", "T", 0, 0, 0, 0, some 1⟩,
         ⟨"Alpha", "T", 0, 0, 0, 0, some 1⟩] ∧
    sortDrivers
        [⟨"Alpha", "T", 0, 0, 0, 0, some 1⟩,
         ⟨"Bravo", "T", 0, 0, 0, 0, some 1⟩] ≠
      sortDrivers
        [⟨"Bravo", "T", 0, 0, 0, 0, some 1⟩,
         ⟨"Alpha", "T", 0, 0, 0, 0, some 1⟩] := by decide

/-- C6 amended: the aggregation is a pure function (identical input,
including order, gives identical output), and for permuted input the ranked
output is a permutation of the same entries — but the order of tied entries
may differ. -/
theorem claim_c6_amended (l₁ l₂ : List MergedDriver) (h : l₁.Perm l₂) :
    (sortDrivers l₁).Perm (sortDrivers l₂) :=
  ((jsSort_perm driverCmp l₁).trans h).trans (jsSort_perm driverCmp l₂).symm

/-- Witness for C6 (amended). -/
theorem claim_c6_witness :
    List.Perm
        [(⟨"Alpha", "T", 0, 0, 0, 0, some 1⟩ : MergedDriver),
         ⟨"Bravo", "T", 0, 0, 0, 0, some 1⟩]
        [⟨"Bravo", "T", 0, 0, 0, 0, some 1⟩,
         ⟨"Alpha", "T", 0, 0, 0, 0, some 1⟩] ∧
    (sortDrivers
        [⟨"Alpha", "T", 0, 0, 0, 0, some 1⟩,
         ⟨"Bravo", "T", 0, 0, 0, 0, some 1⟩]).Perm
      (sortDrivers
        [⟨"Bravo", "T", 0, 0, 0, 0, some 1⟩,
         ⟨"Alpha", "T", 0, 0, 0, 0, some 1⟩]) :=
  ⟨by decide, claim_c6_amended _ _ (by decide)⟩

/-- C7: for every tire-strategy input that is empty or not an object, the
component builds no datasets, signals unavailability (the render message or
the logged format error), and never raises — in particular `Object.keys` is
never reached on `null`/`undefined`. -/
theorem claim_c7_empty_or_nonobject (d : TireData) (h : EmptyOrNonObject d) :
    ∃ e m : Bool, effectRun d = .ok (none, e) ∧
      unavailableMessage d = .ok m ∧ (e = true ∨ m = true) := by
  rcases d with _ | _ | n | s | b | entries
  · exact ⟨false, true, rfl, rfl, Or.inr rfl⟩
  · exact ⟨false, true, rfl, rfl, Or.inr rfl⟩
  · by_cases hn : n = 0
    · subst hn
      exact ⟨false, true, rfl, rfl, Or.inr rfl⟩
    · refine ⟨true, true, ?_, ?_, Or.inl rfl⟩
      · simp [effectRun, truthy, typeofIsObject, hn]
      · simp [unavailableMessage, truthy, typeofIsObject, objectKeysLength, hn]
  · by_cases hs : s = ""
    · subst hs
      exact ⟨false, true, rfl, rfl, Or.inr rfl⟩
    · refine ⟨true, decide (s.length = 0), ?_, ?_, Or.inl rfl⟩
      · simp [effectRun, truthy, typeofIsObject, hs]
      · simp [unavailableMessage, truthy, typeofIsObject, objectKeysLength, hs]
  · rcases b with _ | _
    · exact ⟨false, true, rfl, rfl, Or.inr rfl⟩
    · exact ⟨true, true, rfl, rfl, Or.inl rfl⟩
  · rcases h with h | h | h
    · exact absurd h (by simp [truthy])
    · exact absurd h (by simp [typeofIsObject])
    · have : entries = [] := by injection h
      subst this
      exact ⟨true, true, rfl, rfl, Or.inl rfl⟩

/-- Witness for C7 at the non-object input `5`. -/
theorem claim_c7_witness :
    EmptyOrNonObject (.jnum 5) ∧
    ∃ e m : Bool, effectRun (.jnum 5) = .ok (none, e) ∧
      unavailableMessage (.jnum 5) = .ok m ∧ (e = true ∨ m = true) :=
  ⟨Or.inr (Or.inl rfl), claim_c7_empty_or_nonobject (.jnum 5)
    (Or.inr (Or.inl rfl))⟩

/-- C8: a missing numeric field is defaulted to zero exactly for the points
fields (`total_points`, `points`, `sprint_points`, `races_participated`); a
missing position is never defaulted to zero — the merged record carries no
rank (`none`, and never `some 0`); and (per the spec's normalizer, modelled
here) a record lacking a recognizable identity is dropped entirely. -/
theorem claim_c8_normalization (d : DriverRec) (st : RawStanding) :
    (st.total_points = none → (mergeDriver d (some st)).total_points = 0) ∧
    (st.points = none → (mergeDriver d (some st)).points = 0) ∧
    (st.sprint_points = none → (mergeDriver d (some st)).sprintPoints = 0) ∧
    (st.races_participated = none →
      (mergeDriver d (some st)).races_participated = 0) ∧
    (st.position = none → (mergeDriver d (some st)).position = none) ∧
    (∀ s, (mergeDriver d s).position ≠ some 0) ∧
    (∀ recs : List RawRecord, ∀ r ∈ normalizeRecords recs,
      hasIdentity r = true) ∧
    (∀ recs : List RawRecord, ∀ r ∈ recs, hasIdentity r = false →
      r ∉ normalizeRecords recs) := by
  refine ⟨?_, ?_, ?_, ?_, ?_, ?_, ?_, ?_⟩
  · intro h; simp [mergeDriver, jsOrZero, h]
  · intro h; simp [mergeDriver, jsOrZero, h]
  · intro h; simp [mergeDriver, jsOrZero, h]
  · intro h; simp [mergeDriver, jsOrZero, h]
  · intro h; simp [mergeDriver, jsOrNull, h]
  · intro s
    rcases s with _ | st'
    · simp [mergeDriver, jsOrNull]
    · simp only [mergeDriver, Option.getD]
      rcases hp : st'.position with _ | p
      · simp [jsOrNull]
      · by_cases hp0 : p = 0 <;> simp [jsOrNull, hp0]
  · intro recs r hr
    exact List.of_mem_filter hr
  · intro recs r _ hfalse hmem
    have hh := List.of_mem_filter hmem
    rw [hfalse] at hh
    exact Bool.false_ne_true hh

/-- Witness for C8: an all-missing standings record and an identity-less raw
record. -/
theorem claim_c8_witness :
    (mergeDriver ⟨"Max Verstappen", "Red Bull"⟩
        (some ⟨none, none, none, none, none⟩)).total_points = 0 ∧
    (mergeDriver ⟨"Max Verstappen", "Red Bull"⟩
        (some ⟨none, none, none, none, none⟩)).position = none ∧
    (⟨none, none⟩ : RawRecord) ∉
      normalizeRecords [⟨none, none⟩, ⟨some "Max Verstappen", none⟩] :=
  ⟨(claim_c8_normalization ⟨"Max Verstappen", "Red Bull"⟩
      ⟨none, none, none, none, none⟩).1 rfl,
   (claim_c8_normalization ⟨"Max Verstappen", "Red Bull"⟩
      ⟨none, none, none, none, none⟩).2.2.2.2.1 rfl,
   (claim_c8_normalization ⟨"Max Verstappen", "Red Bull"⟩
      ⟨none, none, none, none, none⟩).2.2.2.2.2.2.2
     [⟨none, none⟩, ⟨some "Max Verstappen", none⟩] ⟨none, none⟩
     (by simp) rfl⟩

/-- C9 is false as stated: the races page issues per-race data fetches (tire
strategy among them) for any selected race, here one whose date is
`'Unknown'` and which `isRaceCompleted` classifies as not completed. -/
theorem claim_c9_counterexample :
    isRaceCompleted (some "Unknown") 20250101 = false ∧
    (⟨.tireStrategy, 5⟩ : FetchReq) ∈
      racesPageFetches (some ⟨5, some "Unknown"⟩) := by decide

/-- C9 amended: the schedule page's click handler treats a race with a
missing, empty, `'Unknown'`, unparseable, or not-strictly-past date as not
completed and never issues its results fetch; the races page applies no such
guard (see the counterexample). -/
theorem claim_c9_amended (race : Race) (now : Int)
    (h : race.date = none ∨ ∃ s, race.date = some s ∧
      (s = "" ∨ s = "Unknown" ∨ parseRaceDate s = none ∨
        ∃ t, parseRaceDate s = some t ∧ now ≤ t)) :
    handleRaceClick race now = none := by
  have hfalse : isRaceCompleted race.date now = false := by
    rcases h with h | ⟨s, hs, hcase⟩
    · rw [h]; rfl
    · rw [hs]
      unfold isRaceCompleted
      rcases hcase with rfl | rfl | hp | ⟨t, hp, ht⟩
      · simp
      · simp
      · by_cases hif : s = "" ∨ s = "Unknown"
        · simp [hif]
        · simp [hif, hp]
      · by_cases hif : s = "" ∨ s = "Unknown"
        · simp [hif]
        · simp [hif, hp]
          omega
  unfold handleRaceClick
  rw [hfalse]
  simp

/-- Witness for C9 (amended) at an `'Unknown'`-dated race. -/
theorem claim_c9_witness :
    ((some "Unknown" : Option String) = none ∨
      ∃ s, (some "Unknown" : Option String) = some s ∧
        (s = "" ∨ s = "Unknown" ∨ parseRaceDate s = none ∨
          ∃ t, parseRaceDate s = some t ∧ (20250101 : Int) ≤ t)) ∧
    handleRaceClick ⟨7, some "Unknown"⟩ 20250101 = none :=
  ⟨Or.inr ⟨"Unknown", rfl, Or.inr (Or.inl rfl)⟩,
   claim_c9_amended ⟨7, some "Unknown"⟩ 20250101
     (Or.inr ⟨"Unknown", rfl, Or.inr (Or.inl rfl)⟩)⟩

/-- C10: a stint with numeric `start_lap` and `end_lap` is included in the
output even when its compound is missing or outside the enumerated compound
map, and such a stint is rendered with the fallback color `'#808080'`. -/
theorem claim_c10_fallback_color (data : List (String × DriverStints))
    (driver : String) (stints : List (Option RawStint)) (st : RawStint)
    (s e : Int) (h1 : (driver, some stints) ∈ data) (h2 : some st ∈ stints)
    (h3 : st.start_lap = some s) (h4 : st.end_lap = some e)
    (h5 : ∀ c, st.compound = some c → compoundColors.lookup c = none) :
    ({ label := driver, x := s, width := e - s, compound := st.compound,
       backgroundColor := "#808080" } : Dataset) ∈ buildDatasets data := by
  have hcolor : stintColor st.compound = "#808080" := by
    rcases hc : st.compound with _ | c
    · rfl
    · unfold stintColor
      simp [h5 c hc]
  apply List.mem_flatMap.mpr
  refine ⟨(driver, some stints), h1, ?_⟩
  show _ ∈ stintDatasets driver stints
  apply List.mem_filterMap.mpr
  refine ⟨some st, h2, ?_⟩
  simp only [h3, h4]
  unfold mkDataset
  rw [hcolor]

/-- Witness for C10: a `"SUPERSOFT"` compound outside the enumerated set. -/
theorem claim_c10_witness :
    (⟨"VER", 1, 19, some "SUPERSOFT", "#808080"⟩ : Dataset) ∈
      buildDatasets c10Data :=
  claim_c10_fallback_color c10Data "VER"
    [some ⟨some 1, some 20, some "SUPERSOFT"⟩]
    ⟨some 1, some 20, some "SUPERSOFT"⟩ 1 20 (by decide) (by decide) rfl rfl
    (by intro c hc
        injection hc with hc
        rw [← hc]
        decide)

end F1
